import Mathlib

/-!
Verification development for the station-map dashboard core
(src/main.py): schema normalization (column sniffing), coordinate
coercion, embedded-coordinate parsing, the deterministic line color
assigner, and the line path builder.

The Python source is shallowly embedded: column headers are lists of
strings, cells are a small inductive type, numeric values are modelled
by rationals, machine 32-bit words by naturals reduced mod 2^32, and
the MD5 digest used by the color assigner is implemented directly over
byte lists.
-/

namespace SubwayViz

/-! ### String helpers (models of Python string operations) -/

/-- Boolean test that the first character list is an initial segment of the
second. -/
def startsWithList : List Char → List Char → Bool
  | [], _ => true
  | _ :: _, [] => false
  | a :: as, b :: bs => a == b && startsWithList as bs

/-- Model of the Python substring membership test: needle in hay. -/
def containsSub (needle hay : String) : Bool :=
  hay.data.tails.any (fun t => startsWithList needle.data t)

/-- ASCII lower-casing of one character, the behavior of Python lower
on the alphabets appearing in headers (non-ASCII characters, including
Hangul, are untouched). -/
def lowerChar (c : Char) : Char :=
  if 65 ≤ c.toNat ∧ c.toNat ≤ 90 then Char.ofNat (c.toNat + 32) else c

/-- Model of Python str.lower. -/
def lowerStr (s : String) : String :=
  ⟨s.data.map lowerChar⟩

/-- The whitespace characters stripped by Python str.strip. -/
def isWS (c : Char) : Bool :=
  c == ' ' || c == '\t' || c == '\n' || c == '\r'

/-- Model of Python str.strip: whitespace removed from both ends. -/
def trimStr (s : String) : String :=
  ⟨((s.data.dropWhile isWS).reverse.dropWhile isWS).reverse⟩

/-- Model of Python str.split(sep) for a one-character separator: the
pieces between separator occurrences, empty pieces kept. -/
def splitOnChar (sep : Char) (cs : List Char) : List (List Char) :=
  cs.foldr (fun c acc =>
    match acc with
    | [] => [[c]]
    | cur :: rest => if c == sep then [] :: cur :: rest else (c :: cur) :: rest) [[]]

/-- Model of Python str.split() with no argument: maximal runs of
non-whitespace characters. -/
def splitWhitespace (cs : List Char) : List (List Char) :=
  (cs.foldr (fun c acc =>
    match acc with
    | [] => [[c]]
    | cur :: rest => if isWS c then [] :: cur :: rest else (c :: cur) :: rest) [[]]).filter
    (fun w => !w.isEmpty)

/-! ### Schema Normalizer: detect_lat_lon (src/main.py lines 21-46) -/

/-- A column is appended to lat_candidates when its lower-cased name
contains "lat" but not "latt", or equals "y". -/
def isLatCand (c : String) : Bool :=
  let lc := lowerStr c
  (containsSub "lat" lc && !containsSub "latt" lc) || lc == "y"

/-- A column is appended to lon_candidates when its lower-cased name
contains "lon", "lng" or "long", or equals "x". -/
def isLonCand (c : String) : Bool :=
  let lc := lowerStr c
  (containsSub "lon" lc || containsSub "lng" lc || containsSub "long" lc) || lc == "x"

/-- The pairs tried by the nested exact-name loops, in loop order:
for alt_lat in ["latitude", "lat"], for alt_lon in ["longitude", "lon", "lng"]. -/
def latLonExactPairs : List (String × String) :=
  [("latitude", "longitude"), ("latitude", "lon"), ("latitude", "lng"),
   ("lat", "longitude"), ("lat", "lon"), ("lat", "lng")]

/-- The exact-name fallback stage of detect_lat_lon: membership of both
pair components in the original (case-sensitive) column names. -/
def exactStage (cols : List String) : Option String × Option String :=
  match latLonExactPairs.find? (fun p => cols.contains p.1 && cols.contains p.2) with
  | some p => (some p.1, some p.2)
  | none => (none, none)

/-- Embedding of detect_lat_lon: one pass collects substring candidates
for latitude and longitude; when both lists are nonempty the first
element of each is returned; otherwise the nested exact-name loops run;
otherwise the function reports no resolution (the coords-column scan in
the source also returns the pair (None, None)). -/
def detect_lat_lon (cols : List String) : Option String × Option String :=
  match cols.filter isLatCand, cols.filter isLonCand with
  | a :: _, b :: _ => (some a, some b)
  | _, _ =>
    match latLonExactPairs.find? (fun p => cols.contains p.1 && cols.contains p.2) with
    | some p => (some p.1, some p.2)
    | none => (none, none)

/-- Resolution of the optional roles (name, line, order) in the source:
iterate the candidate list in order and return the first column whose
lower-cased name equals the candidate (src/main.py lines 190-220). -/
def resolveRole (cands : List String) (cols : List String) : Option String :=
  cands.findSome? (fun cand => cols.find? (fun c => lowerStr c == cand))

/-- Candidate aliases for the name role, in the source's order. -/
def nameCands : List String := ["station", "name", "stop", "title"]

/-- Candidate aliases for the line role, in the source's order. -/
def lineCands : List String := ["line", "route", "branch"]

/-- Candidate aliases for the order role, in the source's order. -/
def orderCands : List String := ["order", "seq", "sequence", "idx"]

/-- Name-column resolution including the fallback to the first column. -/
def nameCol (cols : List String) : String :=
  (resolveRole nameCands cols).getD (cols.headD "")

/-- The resolution policy as the specification states it, for the
latitude role: an exact case-insensitive match against the bilingual
alias table is tried first, winning over any substring match; the
substring scan runs only when no exact alias matches. Modelled from the
spec for comparison with the code's resolver. -/
def claimResolveLat (cols : List String) : Option String :=
  match cols.find? (fun c => ["위도", "latitude", "lat", "y"].contains (lowerStr c)) with
  | some c => some c
  | none => cols.find? (fun c => containsSub "lat" (lowerStr c) && !containsSub "latt" (lowerStr c))

/-- The specification's stated policy for the longitude role, analogous
to claimResolveLat. Modelled from the spec. -/
def claimResolveLon (cols : List String) : Option String :=
  match cols.find? (fun c => ["경도", "longitude", "lon", "lng", "long", "x"].contains (lowerStr c)) with
  | some c => some c
  | none => cols.find? (fun c =>
      containsSub "lon" (lowerStr c) || containsSub "lng" (lowerStr c) ||
        containsSub "long" (lowerStr c))

/-- The specification's stated exact alias table for the name role,
including the Korean alias. Modelled from the spec. -/
def claimResolveName (cols : List String) : Option String :=
  cols.find? (fun c => ["역명", "station", "name", "stop", "title"].contains (lowerStr c))

/-! ### Numeric coercion and row normalization (src/main.py lines 144-187) -/

/-- Raw cell values of the tabular input: an already-numeric value, a
string, or a missing value (the embedding of NaN or an empty cell). -/
inductive Cell where
  | num (q : ℚ)
  | str (s : String)
  | null
deriving DecidableEq, Repr

/-- Value of a list of decimal digit characters. -/
def digitsVal (ds : List Char) : Nat :=
  ds.foldl (fun a c => 10 * a + (c.toNat - 48)) 0

/-- All characters are decimal digits. -/
def allDigits (ds : List Char) : Bool := ds.all Char.isDigit

/-- Model of the numeric parse applied to strings by pd.to_numeric:
an optional sign followed by a decimal literal (digits with at most one
decimal point, at least one digit). Strings outside this fragment are
treated as unparseable, which is the behavior the claims exercise. -/
def parseNumStr (s : String) : Option ℚ :=
  let core : List Char → Option ℚ := fun ds =>
    let ip := ds.takeWhile (fun c => c ≠ '.')
    let rest := ds.dropWhile (fun c => c ≠ '.')
    match rest with
    | [] => if !ip.isEmpty && allDigits ip then some (digitsVal ip) else none
    | _ :: fp =>
      if (!ip.isEmpty || !fp.isEmpty) && allDigits ip && allDigits fp then
        some ((digitsVal ip : ℚ) + (digitsVal fp : ℚ) / (10 : ℚ) ^ fp.length)
      else none
  match s.data with
  | '-' :: rest => (core rest).map (fun v => -v)
  | '+' :: rest => core rest
  | cs => core cs

/-- Embedding of pd.to_numeric with errors="coerce" on one cell: numeric
cells pass through, strings are parsed, anything else coerces to NaN
(modelled as none). -/
def toNumeric : Cell → Option ℚ
  | Cell.num q => some q
  | Cell.str s => parseNumStr s
  | Cell.null => none

/-- A raw input row, restricted to the fields the claims are about: the
resolved latitude and longitude cells and the line cell (none models a
null line cell). -/
structure RawRow where
  latCell : Cell
  lonCell : Cell
  line : Option String
deriving DecidableEq, Repr

/-- A normalized station row: coerced coordinates plus the line cell. -/
structure NormRow where
  lat : ℚ
  lon : ℚ
  line : Option String
deriving DecidableEq, Repr

/-- Coercion of one row: both coordinate cells must coerce numerically
(the source materializes them as the dataframe columns __lat__ and
__lon__). -/
def coerceRow (r : RawRow) : Option NormRow :=
  match toNumeric r.latCell, toNumeric r.lonCell with
  | some a, some b => some ⟨a, b, r.line⟩
  | _, _ => none

/-- Embedding of the dropna step (src/main.py line 184): the normalized
collection keeps exactly the rows whose coordinate cells both coerce.
The function is total: no exception is raised for bad rows. -/
def normalizeRows (rows : List RawRow) : List NormRow :=
  rows.filterMap coerceRow

/-- The dropped-row count reported by the warning (before_n - after_n,
src/main.py lines 183-187). -/
def droppedCount (rows : List RawRow) : Nat :=
  rows.length - (normalizeRows rows).length

/-! ### Embedded-coordinate parsing (src/main.py lines 48-72) -/

/-- Embedding of parse_coords_column, parameterized by the primitive
float-conversion function pf (the Python float builtin); the control
flow of the source is kept exactly.  For a cell containing a comma, the
components are the comma-split pieces; the first try reads them as
(lat, lon), the fallback as (lon, lat), and failure of both yields
none.  Otherwise a cell starting with "point" (case-insensitively) is
read between its first opening and last closing parenthesis,
whitespace-split, and returned with the two arguments swapped. -/
def commaPair (pf : String → Option ℚ) (p0 p1 : String) : Option (ℚ × ℚ) :=
  match pf p0, pf p1 with
  | some a, some b => some (a, b)
  | _, _ =>
    match pf p1, pf p0 with
    | some b, some a => some (b, a)
    | _, _ => none

/-- The geometry-string branch of parse_coords_column: a cell starting
with "point" (case-insensitively) is read between its first opening and
last closing parenthesis (indices as Python find and rfind slice them),
whitespace-split, and returned with the two arguments swapped. -/
def pointBranch (pf : String → Option ℚ) (s : String) : Option (ℚ × ℚ) :=
  if startsWithList "point".data (lowerStr s).data then
    let cs := s.data
    let start := match cs.findIdx? (· == '(') with
      | some k => k + 1
      | none => 0
    let stop := match cs.reverse.findIdx? (· == ')') with
      | some k => cs.length - 1 - k
      | none => cs.length - 1
    match splitWhitespace ((cs.take stop).drop start) with
    | a :: b :: _ =>
      match pf ⟨a⟩, pf ⟨b⟩ with
      | some x, some y => some (y, x)
      | _, _ => none
    | _ => none
  else none

/-- The comma-split, stripped components of a cell, as the source
computes them: [x.strip() for x in s.split(",")] on the stripped cell. -/
def commaParts (s : String) : List String :=
  (splitOnChar ',' (trimStr s).data).map (fun cs => trimStr ⟨cs⟩)

def parse_coords_column (pf : String → Option ℚ) (s : String) : Option (ℚ × ℚ) :=
  match commaParts s with
  | p0 :: p1 :: _ => commaPair pf p0 p1
  | _ => pointBranch pf (trimStr s)

/-! ### Deterministic color assigner (src/main.py lines 74-84)

The source hashes the UTF-8 encoding of the label with MD5 and reads
the first three hex byte pairs of the digest.  MD5 is embedded below
over byte lists, with 32-bit words as naturals reduced mod 2^32. -/

/-- Standard UTF-8 encoding of one character codepoint. -/
def encodeChar (c : Char) : List Nat :=
  let n := c.toNat
  if n < 128 then [n]
  else if n < 2048 then [192 + n / 64, 128 + n % 64]
  else if n < 65536 then [224 + n / 4096, 128 + n / 64 % 64, 128 + n % 64]
  else [240 + n / 262144, 128 + n / 4096 % 64, 128 + n / 64 % 64, 128 + n % 64]

/-- UTF-8 bytes of a string (the source encodes with "utf8"). -/
def utf8Bytes (s : String) : List Nat :=
  s.data.flatMap encodeChar

/-- Reduce to a 32-bit word. -/
def w32 (n : Nat) : Nat := n % 4294967296

/-- Left rotation of a 32-bit word. -/
def rotl32 (x s : Nat) : Nat := w32 ((x <<< s) ||| (x >>> (32 - s)))

/-- The 64 MD5 sine-derived constants. -/
def md5K : List Nat :=
  [3614090360, 3905402710, 606105819, 3250441966, 4118548399, 1200080426, 2821735955, 4249261313,
   1770035416, 2336552879, 4294925233, 2304563134, 1804603682, 4254626195, 2792965006, 1236535329,
   4129170786, 3225465664, 643717713, 3921069994, 3593408605, 38016083, 3634488961, 3889429448,
   568446438, 3275163606, 4107603335, 1163531501, 2850285829, 4243563512, 1735328473, 2368359562,
   4294588738, 2272392833, 1839030562, 4259657740, 2763975236, 1272893353, 4139469664, 3200236656,
   681279174, 3936430074, 3572445317, 76029189, 3654602809, 3873151461, 530742520, 3299628645,
   4096336452, 1126891415, 2878612391, 4237533241, 1700485571, 2399980690, 4293915773, 2240044497,
   1873313359, 4264355552, 2734768916, 1309151649, 4149444226, 3174756917, 718787259, 3951481745]

/-- The 64 MD5 per-round left-rotation amounts. -/
def md5S : List Nat :=
  [7, 12, 17, 22, 7, 12, 17, 22, 7, 12, 17, 22, 7, 12, 17, 22,
   5, 9, 14, 20, 5, 9, 14, 20, 5, 9, 14, 20, 5, 9, 14, 20,
   4, 11, 16, 23, 4, 11, 16, 23, 4, 11, 16, 23, 4, 11, 16, 23,
   6, 10, 15, 21, 6, 10, 15, 21, 6, 10, 15, 21, 6, 10, 15, 21]

/-- The MD5 round mixing function for round index i. -/
def md5F (i b c d : Nat) : Nat :=
  if i < 16 then (b &&& c) ||| ((b ^^^ 4294967295) &&& d)
  else if i < 32 then (d &&& b) ||| ((d ^^^ 4294967295) &&& c)
  else if i < 48 then b ^^^ c ^^^ d
  else c ^^^ (b ||| (d ^^^ 4294967295))

/-- The MD5 message-word index for round index i. -/
def md5G (i : Nat) : Nat :=
  if i < 16 then i
  else if i < 32 then (5 * i + 1) % 16
  else if i < 48 then (3 * i + 5) % 16
  else (7 * i) % 16

/-- Little-endian byte rendering of a number, count bytes long. -/
def leBytes (count n : Nat) : List Nat :=
  (List.range count).map (fun k => n / 2 ^ (8 * k) % 256)

/-- MD5 padding: a 0x80 byte, zeros to 56 mod 64, and the bit length as
eight little-endian bytes. -/
def padMsg (m : List Nat) : List Nat :=
  let zeros := (56 + 64 - (m.length + 1) % 64) % 64
  m ++ [128] ++ List.replicate zeros 0 ++ leBytes 8 ((8 * m.length) % 2 ^ 64)

/-- The sixteen little-endian 32-bit message words of one 64-byte chunk. -/
def chunkWords (chunk : List Nat) : List Nat :=
  (List.range 16).map (fun j =>
    chunk.getD (4 * j) 0 + 256 * chunk.getD (4 * j + 1) 0 +
      65536 * chunk.getD (4 * j + 2) 0 + 16777216 * chunk.getD (4 * j + 3) 0)

/-- The four 32-bit state registers of MD5. -/
structure MD5State where
  a : Nat
  b : Nat
  c : Nat
  d : Nat
deriving DecidableEq, Repr

/-- One MD5 round applied to the state. -/
def md5Round (M : List Nat) (st : MD5State) (i : Nat) : MD5State :=
  let f := w32 (md5F i st.b st.c st.d + st.a + md5K.getD i 0 + M.getD (md5G i) 0)
  ⟨st.d, w32 (st.b + rotl32 f (md5S.getD i 0)), st.b, st.c⟩

/-- MD5 compression of one 64-byte chunk into the running state. -/
def md5Compress (st : MD5State) (chunk : List Nat) : MD5State :=
  let M := chunkWords chunk
  let r := (List.range 64).foldl (md5Round M) st
  ⟨w32 (st.a + r.a), w32 (st.b + r.b), w32 (st.c + r.c), w32 (st.d + r.d)⟩

/-- The fixed MD5 initial state. -/
def md5Init : MD5State := ⟨1732584193, 4023233417, 2562383102, 271733878⟩

/-- The final MD5 state after compressing every 64-byte chunk of the
padded message. -/
def md5Final (msg : List Nat) : MD5State :=
  let p := padMsg msg
  ((List.range (p.length / 64)).map (fun i => (p.drop (64 * i)).take 64)).foldl
    md5Compress md5Init

/-- The sixteen digest bytes of the MD5 hash of a byte message. -/
def md5Bytes (msg : List Nat) : List Nat :=
  leBytes 4 (md5Final msg).a ++ leBytes 4 (md5Final msg).b ++
    leBytes 4 (md5Final msg).c ++ leBytes 4 (md5Final msg).d

/-- Lowercase hex digit character for a value below 16. -/
def hexDigitChar (n : Nat) : Char :=
  if n < 10 then Char.ofNat (48 + n) else Char.ofNat (87 + n)

/-- Lowercase hex rendering of a byte list (the hexdigest string). -/
def bytesToHex (bs : List Nat) : String :=
  ⟨bs.flatMap (fun b => [hexDigitChar (b / 16), hexDigitChar (b % 16)])⟩

/-- Model of the hex-digit value used by int(h, 16) on lowercase hex. -/
def hexCharVal (c : Char) : Nat :=
  if 48 ≤ c.toNat && c.toNat ≤ 57 then c.toNat - 48
  else if 97 ≤ c.toNat && c.toNat ≤ 102 then c.toNat - 87
  else 0

/-- Embedding of line_to_color: hash the label, read three hex byte
pairs of the hexdigest, and lighten each channel.  The source computes
int(channel * 0.8 + 50); for every channel value below 256 this float
expression evaluates to the integer 4 * channel / 5 + 50 (the fractional
part of 0.8 * channel is one of 0, .2, .4, .6, .8, far from any double
rounding boundary), which is how the lightening step is embedded. -/
def line_to_color (line_name : String) : List Nat :=
  let h := (bytesToHex (md5Bytes (utf8Bytes line_name))).data
  let r := 16 * hexCharVal (h.getD 0 '0') + hexCharVal (h.getD 1 '0')
  let g := 16 * hexCharVal (h.getD 2 '0') + hexCharVal (h.getD 3 '0')
  let b := 16 * hexCharVal (h.getD 4 '0') + hexCharVal (h.getD 5 '0')
  [4 * r / 5 + 50, 4 * g / 5 + 50, 4 * b / 5 + 50]

/-- The channel transform the claim states: round(channel * 0.8 + 50)
clamped to [0, 255].  Modelled from the spec; since the fractional part
of 0.8 * c is never one half, rounding is floor of the value plus one
half, i.e. (8 * c + 505) / 10. -/
def claimChannel (c : Nat) : Nat :=
  min 255 ((8 * c + 505) / 10)

/-! ### Line path builder (src/main.py lines 254-279)

The embedding covers the branch in which no order column resolved
(order_col is None), which is the branch the settled claims about
ordering concern: groups of more than two stations are sorted by the
angle from the group centroid, smaller groups keep file order, and
groups below two stations are skipped. -/

/-- A path entry produced for one line: the label and the ordered
(longitude, latitude) pairs. -/
structure PathEntry where
  line : String
  path : List (ℚ × ℚ)
deriving DecidableEq, Repr

/-- The label a row contributes to unique_lines: the line cell with
nulls replaced by "Unknown" (the fillna step). -/
def labelOf (r : NormRow) : String :=
  r.line.getD "Unknown"

/-- Model of pandas unique: the distinct values in first-occurrence
order. -/
def uniqueFirst (l : List String) : List String :=
  l.foldl (fun acc x => if x ∈ acc then acc else acc ++ [x]) []

/-- The row-selection test df[line_col] == ln: a null line cell compares
unequal to every label. -/
def lineMatches (r : NormRow) (ln : String) : Bool :=
  match r.line with
  | some v => v == ln
  | none => false

/-- Mean latitude of a group. -/
def centroidLat (sub : List NormRow) : ℚ :=
  (sub.map (fun r => r.lat)).sum / sub.length

/-- Mean longitude of a group. -/
def centroidLon (sub : List NormRow) : ℚ :=
  (sub.map (fun r => r.lon)).sum / sub.length

/-- Replace the zero vector by the direction of angle zero, matching
arctan2 0 0 = 0. -/
def norm0 (p : ℚ × ℚ) : ℚ × ℚ :=
  if p.1 = 0 ∧ p.2 = 0 then (0, 1) else p

/-- Quadrant index of a nonzero offset vector (first component the
latitude offset y, second the longitude offset x), ascending with the
angle atan2 y x: 0 on (-pi, -pi/2), 1 at -pi/2, 2 on (-pi/2, pi/2),
3 at pi/2, 4 on (pi/2, pi]. -/
def qIdx (p : ℚ × ℚ) : Nat :=
  if p.2 < 0 ∧ p.1 < 0 then 0
  else if p.2 = 0 ∧ p.1 < 0 then 1
  else if 0 < p.2 then 2
  else if p.2 = 0 ∧ 0 < p.1 then 3
  else 4

/-- Computable comparison of two nonzero offset vectors by their atan2
angle: compare quadrant indices first, then cross-multiplied slopes
inside the open quadrant ranges (where both x components share a
sign). -/
def angleLeRaw (p q : ℚ × ℚ) : Bool :=
  if qIdx p < qIdx q then true
  else if qIdx q < qIdx p then false
  else if qIdx p = 1 ∨ qIdx p = 3 then true
  else decide (p.1 * q.2 ≤ q.1 * p.2)

/-- Comparison of two offset vectors by their atan2 angle (the zero
vector carries angle zero, like arctan2 0 0). -/
def angleLe (p q : ℚ × ℚ) : Bool :=
  angleLeRaw (norm0 p) (norm0 q)

/-- Ordering applied to one line group when no order column resolved:
groups of more than two rows are sorted by the angle of the offset from
the centroid, smaller groups keep their order. -/
def angleKeyQ (sub : List NormRow) (r : NormRow) : ℚ × ℚ :=
  (r.lat - centroidLat sub, r.lon - centroidLon sub)

def orderSub (sub : List NormRow) : List NormRow :=
  if 2 < sub.length then
    sub.mergeSort (fun s t => angleLe (angleKeyQ sub s) (angleKeyQ sub t))
  else sub

/-- The group selected for a label. -/
def groupOf (rows : List NormRow) (ln : String) : List NormRow :=
  rows.filter (fun r => lineMatches r ln)

/-- Embedding of the path-building loop: enumerate the unique labels of
the fillna'd line column, select each group by equality against the
original column, skip groups below two rows, order the rest and emit
the (longitude, latitude) pairs.  The function is total: a skipped
group is no error. -/
def buildPaths (rows : List NormRow) : List PathEntry :=
  (uniqueFirst (rows.map labelOf)).filterMap (fun ln =>
    let sub := groupOf rows ln
    if sub.length < 2 then none
    else some ⟨ln, (orderSub sub).map (fun r => (r.lon, r.lat))⟩)

/-- The stations layer: every normalized row is emitted as a point,
colored from its raw line cell (str of a null cell is the string
"nan"). -/
def pointOutput (rows : List NormRow) : List (NormRow × List Nat) :=
  rows.map (fun r => (r, line_to_color (match r.line with
    | some v => v
    | none => "nan")))

/-- The mathematical two-argument arctangent (first argument the
y component, second the x component), the idealization of numpy
arctan2 on the coerced coordinates; used only in specifications. -/
noncomputable def atan2 (y x : ℚ) : ℝ :=
  if 0 < x then Real.arctan ((y : ℝ) / (x : ℝ))
  else if x = 0 then
    if 0 < y then Real.pi / 2
    else if y < 0 then -(Real.pi / 2)
    else 0
  else if 0 ≤ y then Real.arctan ((y : ℝ) / (x : ℝ)) + Real.pi
  else Real.arctan ((y : ℝ) / (x : ℝ)) - Real.pi

/-- The angle key of a row inside a group, as the source computes it:
atan2 of the latitude offset and the longitude offset from the group
centroid. -/
noncomputable def angleKey (sub : List NormRow) (r : NormRow) : ℝ :=
  atan2 (angleKeyQ sub r).1 (angleKeyQ sub r).2

/-! ### Supporting lemmas -/

/-- The head of a filtered list is the first element satisfying the
predicate. -/
theorem head?_filter_eq_find? {α : Type} (p : α → Bool) :
    ∀ l : List α, (l.filter p).head? = l.find? p
  | [] => rfl
  | a :: l => by
    by_cases h : p a
    · simp [List.filter_cons, List.find?_cons, h]
    · simp [List.filter_cons, List.find?_cons, h, head?_filter_eq_find? p l]

/-- Row coercion fails whenever the longitude cell fails numeric
coercion. -/
theorem coerceRow_eq_none_of_lon (r : RawRow) (h : toNumeric r.lonCell = none) :
    coerceRow r = none := by
  unfold coerceRow
  cases toNumeric r.latCell <;> rw [h]

/-- The normalized collection is never longer than the input. -/
theorem normalizeRows_length_le (rows : List RawRow) :
    (normalizeRows rows).length ≤ rows.length :=
  List.length_filterMap_le _ _

/-- Kept and dropped rows partition the input by coercion success. -/
theorem normalize_partition (rows : List RawRow) :
    (normalizeRows rows).length +
      (rows.filter (fun r => (coerceRow r).isNone)).length = rows.length := by
  induction rows with
  | nil => rfl
  | cons a l ih =>
    cases h : coerceRow a <;>
      simp [normalizeRows, List.filterMap_cons, List.filter_cons, h] at ih ⊢ <;> omega

/-! ### C1: role-resolution priority -/

/-- Claim C1 is refuted at a dataset whose headers are exactly the
Korean aliases: the specification's policy resolves both coordinate
roles (and the Korean name alias), while the code resolves nothing and
falls back to the first column for the name role — the code has no
Korean aliases, and its exact-name stage runs after the substring scan,
not before. -/
theorem C1_cex :
    detect_lat_lon ["위도", "경도"] = (none, none) ∧
    claimResolveLat ["위도", "경도"] = some "위도" ∧
    claimResolveLon ["위도", "경도"] = some "경도" ∧
    claimResolveName ["이름", "역명"] = some "역명" ∧
    nameCol ["이름", "역명"] = "이름" := by
  refine ⟨by decide, by decide, by decide, by decide, by decide⟩

/-- The candidate-loop role resolution equals its declarative
description: the first candidate in list-priority order that some
column lower-cases to wins, and it resolves to the leftmost such
column. -/
theorem resolveRole_spec (cands cols : List String) :
    resolveRole cands cols =
      (cands.find? (fun cand => cols.any (fun c => lowerStr c == cand))).bind
        (fun cand => cols.find? (fun c => lowerStr c == cand)) := by
  induction cands with
  | nil => rfl
  | cons cand cs ih =>
    unfold resolveRole at ih ⊢
    rw [List.findSome?_cons, List.find?_cons]
    cases hf : cols.find? (fun c => lowerStr c == cand) with
    | some c =>
      have hmem : c ∈ cols := List.mem_of_find?_eq_some hf
      have hpc := @List.find?_some _ (fun c => lowerStr c == cand) c cols hf
      have hany : cols.any (fun c => lowerStr c == cand) = true :=
        List.any_eq_true.mpr ⟨c, hmem, hpc⟩
      simp only [hany, hf, Option.some_bind]
    | none =>
      have hany : cols.any (fun c => lowerStr c == cand) = false := by
        rw [List.any_eq_false]
        intro x hx
        exact List.find?_eq_none.mp hf x hx
      simp only [hany, hf]
      exact ih

/-- Claim C1 (amended): the substring scan is tried first and wins over
the exact-name stage — whenever a latitude-substring candidate and a
longitude-substring candidate both exist, the leftmost of each is
returned; the exact-name stage (case-sensitive pairs drawn from
latitude/lat against longitude/lon/lng, with no Korean aliases) runs
only when the substring scan fails for at least one role; each of the
name, line and order roles is resolved by exact case-insensitive match
against its English-only candidate list, the first candidate in
priority order that matches some column winning and resolving to the
leftmost such column; when no name candidate matches, the name role
falls back to the first column. -/
theorem C1_amended (cols : List String) :
    (∀ a b, cols.find? isLatCand = some a → cols.find? isLonCand = some b →
      detect_lat_lon cols = (some a, some b)) ∧
    (cols.filter isLatCand = [] ∨ cols.filter isLonCand = [] →
      detect_lat_lon cols = exactStage cols) ∧
    (resolveRole nameCands cols =
      (nameCands.find? (fun cand => cols.any (fun c => lowerStr c == cand))).bind
        (fun cand => cols.find? (fun c => lowerStr c == cand))) ∧
    (resolveRole lineCands cols =
      (lineCands.find? (fun cand => cols.any (fun c => lowerStr c == cand))).bind
        (fun cand => cols.find? (fun c => lowerStr c == cand))) ∧
    (resolveRole orderCands cols =
      (orderCands.find? (fun cand => cols.any (fun c => lowerStr c == cand))).bind
        (fun cand => cols.find? (fun c => lowerStr c == cand))) ∧
    (resolveRole nameCands cols = none → nameCol cols = cols.headD "") := by
  refine ⟨?_, ?_, resolveRole_spec nameCands cols, resolveRole_spec lineCands cols,
    resolveRole_spec orderCands cols, ?_⟩
  · intro a b ha hb
    rw [← head?_filter_eq_find?] at ha hb
    unfold detect_lat_lon
    cases hfa : cols.filter isLatCand with
    | nil => rw [hfa] at ha; exact absurd ha (by simp)
    | cons x xs =>
      cases hfb : cols.filter isLonCand with
      | nil => rw [hfb] at hb; exact absurd hb (by simp)
      | cons y ys =>
        rw [hfa] at ha
        rw [hfb] at hb
        simp only [List.head?_cons, Option.some.injEq] at ha hb
        rw [ha, hb]
  · intro h
    unfold detect_lat_lon exactStage
    rcases h with h | h
    · rw [h]
    · rw [h]
      cases cols.filter isLatCand <;> rfl
  · intro h
    unfold nameCol
    rw [h]
    rfl

/-- Witness for the amended claim C1 at concrete headers: the substring
stage wins, the exact stage is reached when it fails, each optional
role resolves by candidate priority then leftmost column, and the name
role falls back to the first column. -/
theorem C1_amended_wit :
    detect_lat_lon ["platform", "longitude"] = (some "platform", some "longitude") ∧
    detect_lat_lon ["apple", "banana"] = exactStage ["apple", "banana"] ∧
    resolveRole nameCands ["x1", "Stop", "NAME", "name"] = some "NAME" ∧
    resolveRole lineCands ["id", "Branch", "ROUTE"] = some "ROUTE" ∧
    resolveRole orderCands ["a", "IDX", "Seq"] = some "Seq" ∧
    nameCol ["위도", "경도"] = "위도" :=
  ⟨(C1_amended ["platform", "longitude"]).1 "platform" "longitude" (by decide) (by decide),
   (C1_amended ["apple", "banana"]).2.1 (Or.inl (by decide)),
   ((C1_amended ["x1", "Stop", "NAME", "name"]).2.2.1).trans (by decide),
   ((C1_amended ["id", "Branch", "ROUTE"]).2.2.2.1).trans (by decide),
   ((C1_amended ["a", "IDX", "Seq"]).2.2.2.2.1).trans (by decide),
   (C1_amended ["위도", "경도"]).2.2.2.2.2 (by decide)⟩

/-! ### C2: the coordinate-range invariant -/

/-- Claim C2 is refuted: a row whose latitude cell holds the numeric
value 999 passes coercion, is kept in the normalized collection and is
not counted as dropped, although 999 is far outside the valid latitude
range — the code performs no range check. -/
theorem C2_cex :
    normalizeRows [⟨Cell.num 999, Cell.num 0, none⟩] = [⟨999, 0, none⟩] ∧
    droppedCount [⟨Cell.num 999, Cell.num 0, none⟩] = 0 ∧
    ¬ ((999 : ℚ) ≤ 90) := by
  refine ⟨by decide, by decide, by norm_num⟩

/-- Claim C2 (amended): the normalized collection keeps exactly the
rows whose two coordinate cells coerce numerically; rows failing
coercion are excluded and the reported dropped count is exactly their
number; no range check is applied, so finite out-of-range values
survive normalization. -/
theorem C2_amended (rows : List RawRow) :
    (normalizeRows rows).length + droppedCount rows = rows.length ∧
    droppedCount rows = (rows.filter (fun r => (coerceRow r).isNone)).length := by
  have hp := normalize_partition rows
  have hle := normalizeRows_length_le rows
  unfold droppedCount
  omega

/-! ### C3: comma-separated embedded coordinates -/

/-- Claim C3: for a comma-containing cell, the parser returns the
(lat, lon) reading of the first two components when both convert; if
that reading fails it returns the swapped reading when that one
converts (a situation that cannot in fact arise, since both readings
convert under exactly the same condition — the claim's middle clause
holds vacuously); and when both readings fail the cell yields no
coordinates.  The conversion primitive pf is abstract, standing for the
Python float constructor. -/
theorem C3_thm (pf : String → Option ℚ) (s : String) (p0 p1 : String) (rest : List String)
    (hp : commaParts s = p0 :: p1 :: rest) :
    (∀ a b, pf p0 = some a → pf p1 = some b →
      parse_coords_column pf s = some (a, b)) ∧
    ((pf p0 = none ∨ pf p1 = none) →
      (∀ a b, pf p1 = some b → pf p0 = some a →
        parse_coords_column pf s = some (b, a)) ∧
      parse_coords_column pf s = none) := by
  have hred : parse_coords_column pf s = commaPair pf p0 p1 := by
    unfold parse_coords_column
    rw [hp]
  constructor
  · intro a b ha hb
    rw [hred]
    unfold commaPair
    rw [ha, hb]
  · intro h
    constructor
    · intro a b hb ha
      rcases h with h | h
      · rw [ha] at h; exact absurd h (by simp)
      · rw [hb] at h; exact absurd h (by simp)
    · rw [hred]
      unfold commaPair
      rcases h with h | h <;> rw [h] <;> cases hA : pf p0 <;> cases hB : pf p1 <;>
        simp_all

/-- Witness for claim C3 at a concrete comma cell. -/
theorem C3_wit :
    parse_coords_column parseNumStr "37, 127" = some (37, 127) :=
  (C3_thm parseNumStr "37, 127" "37" "127" [] (by decide)).1
    37 127 (by decide) (by decide)

/-! ### C8: rows failing numeric coercion -/

/-- Claim C8: appending a row whose longitude cell fails numeric
coercion leaves the normalized collection unchanged, increments the
reported dropped count by exactly one, and every coercion-valid row of
the input stays in the collection; normalization is a total function,
so no exception reaches the caller. -/
theorem C8_thm (rows : List RawRow) (r : RawRow) (h : toNumeric r.lonCell = none) :
    normalizeRows (rows ++ [r]) = normalizeRows rows ∧
    droppedCount (rows ++ [r]) = droppedCount rows + 1 ∧
    ∀ x ∈ rows, ∀ nr, coerceRow x = some nr → nr ∈ normalizeRows (rows ++ [r]) := by
  have hr : coerceRow r = none := coerceRow_eq_none_of_lon r h
  have heq : normalizeRows (rows ++ [r]) = normalizeRows rows := by
    unfold normalizeRows
    rw [List.filterMap_append]
    simp [List.filterMap_cons, hr]
  refine ⟨heq, ?_, ?_⟩
  · have hle := normalizeRows_length_le rows
    unfold droppedCount
    rw [heq, List.length_append]
    simp
    omega
  · intro x hx nr hnr
    unfold normalizeRows
    exact List.mem_filterMap.mpr ⟨x, List.mem_append_left _ hx, hnr⟩

/-- Claim C9: a row with a null line cell contributes the substitute
label "Unknown" to the enumerated labels, but belongs to no group —
selection compares the original column against each label, and a null
cell equals nothing — so such rows receive no path entry even when two
or more of them share the missing value; they still appear in the
point output. -/
theorem C9_thm (rows : List NormRow) (r : NormRow) (hr : r ∈ rows) (hline : r.line = none) :
    "Unknown" ∈ rows.map labelOf ∧
    (∀ ln : String, r ∉ groupOf rows ln) ∧
    (∃ pr ∈ pointOutput rows, pr.1 = r) ∧
    ((∀ s ∈ rows, s.line = none) → buildPaths rows = []) := by
  refine ⟨?_, ?_, ?_, ?_⟩
  · have hl : labelOf r = "Unknown" := by simp [labelOf, hline]
    exact hl ▸ List.mem_map_of_mem labelOf hr
  · intro ln hmem
    have h2 := (List.mem_filter.mp hmem).2
    simp [lineMatches, hline] at h2
  · exact ⟨_, List.mem_map_of_mem _ hr, rfl⟩
  · intro hall
    unfold buildPaths
    apply List.filterMap_eq_nil_iff.mpr
    intro ln _
    have hg : groupOf rows ln = [] := by
      apply List.filter_eq_nil_iff.mpr
      intro x hx
      simp [lineMatches, hall x hx]
    simp [hg]

/-- Witness for claim C9: two coordinate-valid rows sharing a null line
cell produce no path entry at all, while the label "Unknown" is still
enumerated. -/
theorem C9_wit :
    "Unknown" ∈ ([⟨37, 127, none⟩, ⟨38, 128, none⟩] : List NormRow).map labelOf ∧
    buildPaths [⟨37, 127, none⟩, ⟨38, 128, none⟩] = [] :=
  ⟨(C9_thm [⟨37, 127, none⟩, ⟨38, 128, none⟩] ⟨37, 127, none⟩ (by decide) rfl).1,
   (C9_thm [⟨37, 127, none⟩, ⟨38, 128, none⟩] ⟨37, 127, none⟩ (by decide) rfl).2.2.2
     (by decide)⟩

/-- Claim C7: a line label whose group holds fewer than two rows yields
no path entry, and every label whose group holds at least two rows
yields its entry; the builder is a total function, so the omission
raises nothing. -/
theorem C7_thm (rows : List NormRow) (ln : String) :
    ((groupOf rows ln).length < 2 → ∀ e ∈ buildPaths rows, e.line ≠ ln) ∧
    (ln ∈ uniqueFirst (rows.map labelOf) → 2 ≤ (groupOf rows ln).length →
      (⟨ln, (orderSub (groupOf rows ln)).map (fun r => (r.lon, r.lat))⟩ : PathEntry) ∈
        buildPaths rows) := by
  constructor
  · intro hlen e he hline
    unfold buildPaths at he
    obtain ⟨l', _, hfe⟩ := List.mem_filterMap.mp he
    by_cases hcase : (groupOf rows l').length < 2
    · rw [if_pos hcase] at hfe
      exact absurd hfe (by simp)
    · rw [if_neg hcase] at hfe
      have he2 := (Option.some.inj hfe).symm
      rw [he2] at hline
      simp only [PathEntry.mk.injEq] at hline ⊢
      rw [hline] at hcase
      exact hcase hlen
  · intro hmem hlen
    unfold buildPaths
    exact List.mem_filterMap.mpr ⟨ln, hmem, by rw [if_neg (Nat.not_lt.mpr hlen)]⟩

/-- Witness for claim C7: a one-station line produces no entry while a
two-station line in the same dataset produces its entry. -/
theorem C7_wit :
    (∀ e ∈ buildPaths [⟨9, 9, some "A"⟩, ⟨1, 2, some "B"⟩, ⟨3, 4, some "B"⟩], e.line ≠ "A") ∧
    (⟨"B", (orderSub (groupOf [⟨9, 9, some "A"⟩, ⟨1, 2, some "B"⟩, ⟨3, 4, some "B"⟩] "B")).map
        (fun r => (r.lon, r.lat))⟩ : PathEntry) ∈
      buildPaths [⟨9, 9, some "A"⟩, ⟨1, 2, some "B"⟩, ⟨3, 4, some "B"⟩] :=
  ⟨(C7_thm [⟨9, 9, some "A"⟩, ⟨1, 2, some "B"⟩, ⟨3, 4, some "B"⟩] "A").1 (by decide),
   (C7_thm [⟨9, 9, some "A"⟩, ⟨1, 2, some "B"⟩, ⟨3, 4, some "B"⟩] "B").2 (by decide) (by decide)⟩

/-! ### C4 and C10: the color assigner -/

/-- Unrolled little-endian rendering of a word as four bytes. -/
theorem leBytes_four (n : Nat) :
    leBytes 4 n = [n % 256, n / 256 % 256, n / 65536 % 256, n / 16777216 % 256] := by
  show (List.range 4).map _ = _
  norm_num [List.range_succ]

/-- Parsing a hex digit character back to its value. -/
theorem hexCharVal_hexDigitChar (v : Nat) (h : v < 16) :
    hexCharVal (hexDigitChar v) = v := by
  interval_cases v <;> decide

/-- A hex byte pair of the digest parses back to the digest byte. -/
theorem hexPair_of_byte (x : Nat) (h : x < 256) :
    16 * hexCharVal (hexDigitChar (x / 16)) + hexCharVal (hexDigitChar (x % 16)) = x := by
  have h1 : x / 16 < 16 := by omega
  have h2 : x % 16 < 16 := by omega
  rw [hexCharVal_hexDigitChar _ h1, hexCharVal_hexDigitChar _ h2]
  omega

/-- Claim C4 (amended): the color of a label is obtained from the first
three bytes of the MD5 digest of its UTF-8 encoding by the transform
channel value 4 * c / 5 + 50 — the floor (Python int truncation) of
c * 0.8 + 50, not its rounding; no clamping is involved because the
result always lies inside [0, 255].  Determinism holds because the
assigner is a pure function of the label. -/
theorem C4_amended (label : String) :
    line_to_color label =
      ((md5Bytes (utf8Bytes label)).take 3).map (fun c => 4 * c / 5 + 50) := by
  unfold line_to_color md5Bytes bytesToHex
  generalize (md5Final (utf8Bytes label)).a = A
  generalize (md5Final (utf8Bytes label)).b = B
  generalize (md5Final (utf8Bytes label)).c = C
  generalize (md5Final (utf8Bytes label)).d = D
  rw [leBytes_four A, leBytes_four B, leBytes_four C, leBytes_four D]
  simp only [List.cons_append, List.nil_append, List.flatMap_cons, List.getD_cons_zero,
    List.getD_cons_succ, List.take_succ_cons, List.take_zero, List.map_cons, List.map_nil]
  rw [hexPair_of_byte (A % 256) (Nat.mod_lt _ (by norm_num)),
    hexPair_of_byte (A / 256 % 256) (Nat.mod_lt _ (by norm_num)),
    hexPair_of_byte (A / 65536 % 256) (Nat.mod_lt _ (by norm_num))]

set_option maxRecDepth 100000 in
/-- Claim C4 is refuted at the label "1": the code truncates each
lightened channel (giving 206, 211, 102 from the digest bytes 196, 202,
66), while the claim's rounding transform gives 207, 212, 103. -/
theorem C4_cex :
    line_to_color "1" = [206, 211, 102] ∧
    (md5Bytes (utf8Bytes "1")).take 3 = [196, 202, 66] ∧
    ((md5Bytes (utf8Bytes "1")).take 3).map claimChannel = [207, 212, 103] ∧
    ([206, 211, 102] : List Nat) ≠ [207, 212, 103] := by
  refine ⟨by decide, by decide, by decide, by decide⟩

/-- Every hex digit value is at most 15. -/
theorem hexCharVal_le (c : Char) : hexCharVal c ≤ 15 := by
  unfold hexCharVal
  split_ifs with h1 h2
  · simp only [Bool.and_eq_true, decide_eq_true_eq] at h1
    omega
  · simp only [Bool.and_eq_true, decide_eq_true_eq] at h2
    omega
  · omega

/-- Every channel built from two hex digits lies in [50, 254]. -/
theorem channel_bound (u v : Char) :
    50 ≤ 4 * (16 * hexCharVal u + hexCharVal v) / 5 + 50 ∧
      4 * (16 * hexCharVal u + hexCharVal v) / 5 + 50 ≤ 254 := by
  have hu := hexCharVal_le u
  have hv := hexCharVal_le v
  have hx : 4 * (16 * hexCharVal u + hexCharVal v) ≤ 1020 := by omega
  have hd : 4 * (16 * hexCharVal u + hexCharVal v) / 5 ≤ 1020 / 5 :=
    Nat.div_le_div_right hx
  omega

/-- Claim C10: every channel of every color lies in [50, 254], so the
clamp to [0, 255] can never act and neither pure black nor pure white
is ever produced. -/
theorem C10_thm (label : String) (c : Nat) (hc : c ∈ line_to_color label) :
    50 ≤ c ∧ c ≤ 254 := by
  unfold line_to_color at hc
  simp only [List.mem_cons, List.not_mem_nil, or_false] at hc
  rcases hc with hc | hc | hc <;> rw [hc] <;> exact channel_bound _ _

set_option maxRecDepth 100000 in
/-- Witness for claim C10 at the label "2", whose first channel is 210. -/
theorem C10_wit : 210 ∈ line_to_color "2" ∧ 50 ≤ 210 ∧ 210 ≤ 254 :=
  ⟨by decide, C10_thm "2" 210 (by decide)⟩

/-- Witness for claim C8: a longitude cell holding the string "abc"
fails coercion; the valid row stays, the bad row is dropped and
counted. -/
theorem C8_wit :
    normalizeRows ([⟨Cell.num 37, Cell.num 127, some "A"⟩] ++
        [⟨Cell.num 38, Cell.str "abc", some "A"⟩]) =
      normalizeRows [⟨Cell.num 37, Cell.num 127, some "A"⟩] ∧
    droppedCount ([⟨Cell.num 37, Cell.num 127, some "A"⟩] ++
        [⟨Cell.num 38, Cell.str "abc", some "A"⟩]) =
      droppedCount [⟨Cell.num 37, Cell.num 127, some "A"⟩] + 1 ∧
    ∀ x ∈ [(⟨Cell.num 37, Cell.num 127, some "A"⟩ : RawRow)], ∀ nr,
      coerceRow x = some nr →
      nr ∈ normalizeRows ([⟨Cell.num 37, Cell.num 127, some "A"⟩] ++
        [⟨Cell.num 38, Cell.str "abc", some "A"⟩]) :=
  C8_thm [⟨Cell.num 37, Cell.num 127, some "A"⟩]
    ⟨Cell.num 38, Cell.str "abc", some "A"⟩ (by decide)

/-! ### C6: the centroid-angle ordering

The computable comparator angleLeRaw is proved to agree with the
mathematical atan2 ordering through a quadrant analysis: the quadrant
index is ascending in the angle, and inside each open quadrant the
angle is a strictly monotone function of the slope. -/

/-- The atan2 value on the open right half plane. -/
theorem atan2_of_pos (y x : ℚ) (hx : 0 < x) :
    atan2 y x = Real.arctan ((y : ℝ) / (x : ℝ)) := by
  unfold atan2
  rw [if_pos hx]

/-- The atan2 value on the lower left quadrant. -/
theorem atan2_of_neg_neg (y x : ℚ) (hx : x < 0) (hy : y < 0) :
    atan2 y x = Real.arctan ((y : ℝ) / (x : ℝ)) - Real.pi := by
  unfold atan2
  rw [if_neg (by exact fun h => absurd h (lt_asymm hx)), if_neg hx.ne,
    if_neg (by exact fun h => absurd hy (not_lt.mpr h))]

/-- The atan2 value on the closed upper left quadrant. -/
theorem atan2_of_neg_nonneg (y x : ℚ) (hx : x < 0) (hy : 0 ≤ y) :
    atan2 y x = Real.arctan ((y : ℝ) / (x : ℝ)) + Real.pi := by
  unfold atan2
  rw [if_neg (by exact fun h => absurd h (lt_asymm hx)), if_neg hx.ne, if_pos hy]

/-- Region 0 bounds: both coordinates negative. -/
theorem atan2_bounds_neg (y x : ℚ) (hx : x < 0) (hy : y < 0) :
    -Real.pi < atan2 y x ∧ atan2 y x < -(Real.pi / 2) := by
  rw [atan2_of_neg_neg y x hx hy]
  have hx' : (x : ℝ) < 0 := by exact_mod_cast hx
  have hy' : (y : ℝ) < 0 := by exact_mod_cast hy
  have ht : 0 < (y : ℝ) / (x : ℝ) := div_pos_iff.mpr (Or.inr ⟨hy', hx'⟩)
  have h1 : Real.arctan 0 < Real.arctan ((y : ℝ) / (x : ℝ)) := Real.arctan_strictMono ht
  rw [Real.arctan_zero] at h1
  have h2 := Real.arctan_lt_pi_div_two ((y : ℝ) / (x : ℝ))
  constructor <;> linarith

/-- Region 1 bounds: the negative y axis, where the angle is exactly
minus a half pi. -/
theorem atan2_val_zneg (y x : ℚ) (hx : x = 0) (hy : y < 0) :
    -(Real.pi / 2) ≤ atan2 y x ∧ atan2 y x ≤ -(Real.pi / 2) := by
  subst hx
  unfold atan2
  rw [if_neg (lt_irrefl 0), if_pos rfl, if_neg (by exact fun h => absurd hy (lt_asymm h)),
    if_pos hy]
  exact ⟨le_refl _, le_refl _⟩

/-- Region 2 bounds: the open right half plane. -/
theorem atan2_bounds_pos (y x : ℚ) (hx : 0 < x) :
    -(Real.pi / 2) < atan2 y x ∧ atan2 y x < Real.pi / 2 := by
  rw [atan2_of_pos y x hx]
  exact ⟨Real.neg_pi_div_two_lt_arctan _, Real.arctan_lt_pi_div_two _⟩

/-- Region 3 bounds: the positive y axis, where the angle is exactly a
half pi. -/
theorem atan2_val_zpos (y x : ℚ) (hx : x = 0) (hy : 0 < y) :
    Real.pi / 2 ≤ atan2 y x ∧ atan2 y x ≤ Real.pi / 2 := by
  subst hx
  unfold atan2
  rw [if_neg (lt_irrefl 0), if_pos rfl, if_pos hy]
  exact ⟨le_refl _, le_refl _⟩

/-- Region 4 bounds: negative x, nonnegative y. -/
theorem atan2_bounds_nn (y x : ℚ) (hx : x < 0) (hy : 0 ≤ y) :
    Real.pi / 2 < atan2 y x ∧ atan2 y x ≤ Real.pi := by
  rw [atan2_of_neg_nonneg y x hx hy]
  have hx' : (x : ℝ) < 0 := by exact_mod_cast hx
  have hy' : 0 ≤ (y : ℝ) := by exact_mod_cast hy
  have ht : (y : ℝ) / (x : ℝ) ≤ 0 := div_nonpos_iff.mpr (Or.inl ⟨hy', hx'.le⟩)
  have h1 : Real.arctan ((y : ℝ) / (x : ℝ)) ≤ Real.arctan 0 :=
    Real.arctan_strictMono.monotone ht
  rw [Real.arctan_zero] at h1
  have h2 := Real.neg_pi_div_two_lt_arctan ((y : ℝ) / (x : ℝ))
  constructor <;> linarith

/-- Exhaustive quadrant analysis of a nonzero offset vector. -/
theorem qIdx_spec (p : ℚ × ℚ) (hp : ¬(p.1 = 0 ∧ p.2 = 0)) :
    (qIdx p = 0 ∧ p.2 < 0 ∧ p.1 < 0) ∨ (qIdx p = 1 ∧ p.2 = 0 ∧ p.1 < 0) ∨
    (qIdx p = 2 ∧ 0 < p.2) ∨ (qIdx p = 3 ∧ p.2 = 0 ∧ 0 < p.1) ∨
    (qIdx p = 4 ∧ p.2 < 0 ∧ 0 ≤ p.1) := by
  unfold qIdx
  split_ifs with h1 h2 h3 h4
  · exact Or.inl ⟨rfl, h1⟩
  · exact Or.inr (Or.inl ⟨rfl, h2⟩)
  · exact Or.inr (Or.inr (Or.inl ⟨rfl, h3⟩))
  · exact Or.inr (Or.inr (Or.inr (Or.inl ⟨rfl, h4⟩)))
  · push_neg at h1 h2 h4 hp
    refine Or.inr (Or.inr (Or.inr (Or.inr ⟨rfl, ?_⟩)))
    rcases lt_trichotomy p.2 0 with hx | hx | hx
    · exact ⟨hx, h1 hx⟩
    · exfalso
      have hb : p.1 = 0 := le_antisymm (h4 hx) (h2 hx)
      exact hp hb hx
    · exact absurd hx h3

/-- Division comparison against cross multiplication when the product
of the denominators is positive. -/
theorem div_le_div_iff_mul_pos {a c b d : ℝ} (h : 0 < b * d) :
    a / b ≤ c / d ↔ a * d ≤ c * b := by
  rcases lt_trichotomy b 0 with hb | hb | hb
  · have hd : d < 0 := by nlinarith
    rw [show a / b = -a / -b by rw [neg_div_neg_eq], show c / d = -c / -d by rw [neg_div_neg_eq],
      div_le_div_iff (by linarith) (by linarith)]
    constructor <;> intro h' <;> nlinarith
  · rw [hb] at h
    simp at h
  · have hd : 0 < d := by nlinarith
    rw [div_le_div_iff hb hd]

/-- Inside one open quadrant the arctangent ordering of the slopes is
the cross-multiplied comparison. -/
theorem slope_le_iff (y1 x1 y2 x2 : ℚ) (hx : 0 < (x1 : ℝ) * (x2 : ℝ)) :
    (Real.arctan ((y1 : ℝ) / (x1 : ℝ)) ≤ Real.arctan ((y2 : ℝ) / (x2 : ℝ)) ↔
      y1 * x2 ≤ y2 * x1) := by
  rw [Real.arctan_strictMono.le_iff_le, div_le_div_iff_mul_pos hx]
  constructor
  · intro h
    exact_mod_cast h
  · intro h
    exact_mod_cast h

/-- Across distinct quadrant indices the atan2 angle is strictly
ascending. -/
theorem atan2_lt_of_qIdx_lt (p q : ℚ × ℚ) (hp : ¬(p.1 = 0 ∧ p.2 = 0))
    (hq : ¬(q.1 = 0 ∧ q.2 = 0)) (h : qIdx p < qIdx q) :
    atan2 p.1 p.2 < atan2 q.1 q.2 := by
  have hpi := Real.pi_pos
  rcases qIdx_spec p hp with ⟨hi, hx, hy⟩ | ⟨hi, hx, hy⟩ | ⟨hi, hx⟩ | ⟨hi, hx, hy⟩ | ⟨hi, hx, hy⟩ <;>
    rcases qIdx_spec q hq with ⟨hj, hx2, hy2⟩ | ⟨hj, hx2, hy2⟩ | ⟨hj, hx2⟩ | ⟨hj, hx2, hy2⟩ |
      ⟨hj, hx2, hy2⟩ <;>
    rw [hi, hj] at h <;>
    first
      | (exfalso; omega)
      | (first
          | have hb1 := atan2_bounds_neg p.1 p.2 hx hy
          | have hb1 := atan2_val_zneg p.1 p.2 hx hy
          | have hb1 := atan2_bounds_pos p.1 p.2 hx
          | have hb1 := atan2_val_zpos p.1 p.2 hx hy
          | have hb1 := atan2_bounds_nn p.1 p.2 hx hy) <;>
        (first
          | have hb2 := atan2_bounds_neg q.1 q.2 hx2 hy2
          | have hb2 := atan2_val_zneg q.1 q.2 hx2 hy2
          | have hb2 := atan2_bounds_pos q.1 q.2 hx2
          | have hb2 := atan2_val_zpos q.1 q.2 hx2 hy2
          | have hb2 := atan2_bounds_nn q.1 q.2 hx2 hy2) <;>
        linarith [hb1.1, hb1.2, hb2.1, hb2.2]

/-- The comparator agrees with the atan2 ordering on nonzero vectors. -/
theorem angleLeRaw_iff (p q : ℚ × ℚ) (hp : ¬(p.1 = 0 ∧ p.2 = 0))
    (hq : ¬(q.1 = 0 ∧ q.2 = 0)) :
    (angleLeRaw p q = true ↔ atan2 p.1 p.2 ≤ atan2 q.1 q.2) := by
  rcases Nat.lt_trichotomy (qIdx p) (qIdx q) with h | h | h
  · unfold angleLeRaw
    rw [if_pos h]
    simp only [true_iff]
    exact (atan2_lt_of_qIdx_lt p q hp hq h).le
  · unfold angleLeRaw
    rw [if_neg (by omega), if_neg (by omega)]
    rcases qIdx_spec p hp with ⟨hi, hx, hy⟩ | ⟨hi, hx, hy⟩ | ⟨hi, hx⟩ | ⟨hi, hx, hy⟩ |
        ⟨hi, hx, hy⟩ <;>
      rcases qIdx_spec q hq with ⟨hj, hx2, hy2⟩ | ⟨hj, hx2, hy2⟩ | ⟨hj, hx2⟩ | ⟨hj, hx2, hy2⟩ |
        ⟨hj, hx2, hy2⟩ <;>
      first
        | (exfalso; omega)
        | skip
    · rw [if_neg (by rw [hi]; norm_num), decide_eq_true_eq,
        atan2_of_neg_neg p.1 p.2 hx hy, atan2_of_neg_neg q.1 q.2 hx2 hy2,
        sub_le_sub_iff_right]
      have hprod : 0 < (p.2 : ℝ) * (q.2 : ℝ) :=
        mul_pos_of_neg_of_neg (by exact_mod_cast hx) (by exact_mod_cast hx2)
      exact (slope_le_iff p.1 p.2 q.1 q.2 hprod).symm
    · rw [if_pos (Or.inl hi)]
      simp only [true_iff]
      have hb1 := atan2_val_zneg p.1 p.2 hx hy
      have hb2 := atan2_val_zneg q.1 q.2 hx2 hy2
      linarith [hb1.2, hb2.1]
    · rw [if_neg (by rw [hi]; norm_num), decide_eq_true_eq,
        atan2_of_pos p.1 p.2 hx, atan2_of_pos q.1 q.2 hx2]
      have hprod : 0 < (p.2 : ℝ) * (q.2 : ℝ) :=
        mul_pos (by exact_mod_cast hx) (by exact_mod_cast hx2)
      exact (slope_le_iff p.1 p.2 q.1 q.2 hprod).symm
    · rw [if_pos (Or.inr hi)]
      simp only [true_iff]
      have hb1 := atan2_val_zpos p.1 p.2 hx hy
      have hb2 := atan2_val_zpos q.1 q.2 hx2 hy2
      linarith [hb1.2, hb2.1]
    · rw [if_neg (by rw [hi]; norm_num), decide_eq_true_eq,
        atan2_of_neg_nonneg p.1 p.2 hx hy, atan2_of_neg_nonneg q.1 q.2 hx2 hy2,
        add_le_add_iff_right]
      have hprod : 0 < (p.2 : ℝ) * (q.2 : ℝ) :=
        mul_pos_of_neg_of_neg (by exact_mod_cast hx) (by exact_mod_cast hx2)
      exact (slope_le_iff p.1 p.2 q.1 q.2 hprod).symm
  · unfold angleLeRaw
    rw [if_neg (by omega), if_pos h]
    simp only [Bool.false_eq_true, false_iff, not_le]
    exact atan2_lt_of_qIdx_lt q p hq hp h

/-- The normalized offset vector is never the zero vector. -/
theorem norm0_ne (p : ℚ × ℚ) : ¬((norm0 p).1 = 0 ∧ (norm0 p).2 = 0) := by
  unfold norm0
  split_ifs with h
  · simp
  · exact h

/-- Normalizing the zero vector preserves its atan2 angle. -/
theorem atan2_norm0 (p : ℚ × ℚ) : atan2 (norm0 p).1 (norm0 p).2 = atan2 p.1 p.2 := by
  unfold norm0
  split_ifs with h
  · obtain ⟨h1, h2⟩ := h
    rw [h1, h2]
    have l : atan2 0 1 = 0 := by
      rw [atan2_of_pos 0 1 one_pos]
      norm_num [Real.arctan_zero]
    have r : atan2 0 0 = 0 := by
      unfold atan2
      norm_num
    show atan2 0 1 = atan2 0 0
    rw [l, r]
  · rfl

/-- The full comparator computes the atan2 ordering. -/
theorem angleLe_iff (p q : ℚ × ℚ) :
    (angleLe p q = true ↔ atan2 p.1 p.2 ≤ atan2 q.1 q.2) := by
  unfold angleLe
  rw [angleLeRaw_iff (norm0 p) (norm0 q) (norm0_ne p) (norm0_ne q), atan2_norm0, atan2_norm0]

/-- Transitivity of the angle comparator. -/
theorem angleLe_trans (a b c : ℚ × ℚ) (h1 : angleLe a b = true) (h2 : angleLe b c = true) :
    angleLe a c = true :=
  (angleLe_iff a c).mpr (le_trans ((angleLe_iff a b).mp h1) ((angleLe_iff b c).mp h2))

/-- Totality of the angle comparator. -/
theorem angleLe_total (a b : ℚ × ℚ) : (angleLe a b || angleLe b a) = true := by
  rcases le_total (atan2 a.1 a.2) (atan2 b.1 b.2) with h | h
  · rw [(angleLe_iff a b).mpr h]
    simp
  · rw [(angleLe_iff b a).mpr h]
    simp

/-- Claim C6: when no order column resolves, a group of more than two
stations is emitted sorted ascending by the atan2 angle of the offset
from the group centroid (the mean latitude and mean longitude) — the
output is a permutation of the group whose angle keys ascend — and a
group of exactly two stations is kept in its original order, the angle
sort being skipped. -/
theorem C6_thm (sub : List NormRow) :
    (2 < sub.length →
      (orderSub sub).Perm sub ∧
      (orderSub sub).Pairwise (fun s t => angleKey sub s ≤ angleKey sub t)) ∧
    (sub.length = 2 → orderSub sub = sub) := by
  constructor
  · intro h
    unfold orderSub
    rw [if_pos h]
    refine ⟨List.mergeSort_perm _ _, ?_⟩
    have hs := @List.sorted_mergeSort NormRow
      (fun s t => angleLe (angleKeyQ sub s) (angleKeyQ sub t))
      (fun a b c hab hbc => angleLe_trans _ _ _ hab hbc)
      (fun a b => angleLe_total _ _) sub
    exact hs.imp (fun hab => (angleLe_iff _ _).mp hab)
  · intro h
    unfold orderSub
    rw [if_neg (by omega)]

/-- Witness for claim C6: a four-station square group is reordered
ascending by centroid angle, and a two-station group is untouched. -/
theorem C6_wit :
    ((orderSub [⟨0, 1, some "L"⟩, ⟨1, 0, some "L"⟩, ⟨0, -1, some "L"⟩, ⟨-1, 0, some "L"⟩]).Perm
        [⟨0, 1, some "L"⟩, ⟨1, 0, some "L"⟩, ⟨0, -1, some "L"⟩, ⟨-1, 0, some "L"⟩] ∧
      (orderSub [⟨0, 1, some "L"⟩, ⟨1, 0, some "L"⟩, ⟨0, -1, some "L"⟩,
          ⟨-1, 0, some "L"⟩]).Pairwise
        (fun s t =>
          angleKey [⟨0, 1, some "L"⟩, ⟨1, 0, some "L"⟩, ⟨0, -1, some "L"⟩, ⟨-1, 0, some "L"⟩] s ≤
          angleKey [⟨0, 1, some "L"⟩, ⟨1, 0, some "L"⟩, ⟨0, -1, some "L"⟩,
            ⟨-1, 0, some "L"⟩] t)) ∧
    orderSub [⟨5, 6, some "M"⟩, ⟨7, 8, some "M"⟩] = [⟨5, 6, some "M"⟩, ⟨7, 8, some "M"⟩] :=
  ⟨(C6_thm [⟨0, 1, some "L"⟩, ⟨1, 0, some "L"⟩, ⟨0, -1, some "L"⟩, ⟨-1, 0, some "L"⟩]).1
      (by decide),
   (C6_thm [⟨5, 6, some "M"⟩, ⟨7, 8, some "M"⟩]).2 (by decide)⟩

end SubwayViz
